import Mathlib

/-!
Record-access layer of `api/models` (users.go, authentication.go)

A shallow embedding of the `User` and `Authentication` models.  The Go methods
talk to a relational store through a query builder; here the store is an
explicit value (`Store`) holding the tables the queries mention, every storage
call is a function on that value, and a detached `go auditLog(...)` is recorded
as an entry of the list of audit calls an operation hands back.

Helpers of the package that live outside the two source files (`setStatus`,
`sanitizeQuery`, `utils.GetPermissions`, the row scanner) are taken as
parameters (`Helpers`); the theorems hold for every choice of them.
-/

namespace Models

/-! ## Data model -/

/-- Instants of `time.Time`, counted from the zero time `0`. -/
abbrev Time := Nat

/-- Error kinds a storage call can hand back (the non-nil values of Go's `error`). -/
inductive Err where
  | ErrNoRows
  | ConstraintViolation
  | TransactionFailure
  | StorageUnavailable
  deriving DecidableEq, Repr

/-- Go's `error`: `none` is `nil`. -/
abbrev error := Option Err

/-- Structured attribute bag (`*map[string]any`), as an association list. -/
abbrev Bag := List (String × String)

/-- Modelled from the spec: the embedded `AppModel` (declared outside the two
source files) carries the external identifier and the lifecycle columns
`uuid`, `created_at`, `updated_at`, `deleted_at`, `status`. -/
structure AppModel where
  UUID : String
  CreatedAt : Time
  UpdatedAt : Time
  DeletedAt : Option Time
  Status : String
  deriving DecidableEq, Repr

/-- The `User` struct of users.go, with the embedded `AppModel` kept as a field. -/
structure User where
  ID : Int
  Username : String
  Password : String
  Email : String
  FirstName : Option String
  MiddleName : Option String
  LastName : Option String
  Mobile : Option String
  Address : Option Bag
  Optin : Bool
  LastLogin : Time
  Metadata : Option Bag
  IsAdmin : Bool
  IsOnline : Bool
  Permissions : List String
  Roles : List String
  Groups : List String
  app : AppModel
  deriving DecidableEq, Repr

/-- Promoted field `UUID` of the embedded `AppModel`. -/
def User.UUID (u : User) : String := u.app.UUID

/-- Go zero value of `User`. -/
def User.zero : User :=
  { ID := 0, Username := "", Password := "", Email := "",
    FirstName := none, MiddleName := none, LastName := none, Mobile := none,
    Address := none, Optin := false, LastLogin := 0, Metadata := none,
    IsAdmin := false, IsOnline := false,
    Permissions := [], Roles := [], Groups := [],
    app := { UUID := "", CreatedAt := 0, UpdatedAt := 0, DeletedAt := none, Status := "" } }

/-- A row of a junction table (`user_roles`, `user_groups`): the edge, its
soft-deletion time and its status code. -/
structure Edge where
  user_id : Int
  target_id : Int
  deleted_at : Option Time
  status : Option String
  deriving DecidableEq, Repr

/-- A row of `roles` or `groups`. -/
structure Named where
  id : Int
  name : Option String
  deriving DecidableEq, Repr

/-- The relational store the package-level handle `db` points at. -/
structure Store where
  users : List User
  user_roles : List Edge
  roles : List Named
  user_groups : List Edge
  groups : List Named
  /-- next value of the `id` sequence of `users` -/
  seq : Int
  /-- the engine's generator of external identifiers -/
  genUUID : Int → String
  /-- the engine's clock -/
  clock : Time

/-- Caller-supplied query parameters (the execution context is passed through and
not modelled). -/
structure QueryParams where
  UUID : String
  Search : String
  SortField : String
  SortDir : String
  Page : Int
  Limit : Int
  deriving DecidableEq, Repr

/-- Modelled from the spec: the `Results` struct (declared outside the two
source files) holds a single item, an ordered collection and a total count. -/
structure Results where
  Item : Option User
  Items : List User
  Count : Int
  deriving DecidableEq, Repr

/-- Go zero value of `Results`. -/
def Results.zero : Results := { Item := none, Items := [], Count := 0 }

/-- The new-value argument of `auditLog`: the entity itself, or the one-entry map
built by `Delete` (`deleted_at`, holding the time) or `UpdateStatus` (`status`). -/
inductive AuditValue where
  | entity (u : User)
  | deletedAt (t : Time)
  | status (s : String)
  deriving DecidableEq, Repr

/-- One `go auditLog(ctx, old, new, id, entityType, action, err)` statement, with
its arguments as evaluated when the statement runs. -/
structure AuditCall where
  oldValue : Option User
  newValue : AuditValue
  subjectId : Int
  entityType : String
  action : String
  err : error
  deriving DecidableEq, Repr

/-! ## Storage capability -/

/-- Scan of `SELECT ... FROM users WHERE uuid = ?` into one struct: the first
matching row and a nil error, or the untouched zero value and `ErrNoRows`. -/
def selectByUUID (s : Store) (uuid : String) : User × error :=
  match s.users.find? (fun r => r.UUID == uuid) with
  | some r => (r, none)
  | none => (User.zero, some Err.ErrNoRows)

/-- Modelled from the spec: `parseSetClause` (outside the two source files)
renders the allow-list as the assignments of a conflict update, one
`col = EXCLUDED.col` per listed column; the clause is kept as the list of
assigned columns. -/
def parseSetClause (cols : List String) : List String := cols

/-- One assignment of the conflict update: column `c` of the stored row takes the
value of the proposed row; `updated_at` is refreshed from the engine clock. -/
def assignColumn (now : Time) (excluded : User) (target : User) (c : String) : User :=
  match c with
  | "username" => { target with Username := excluded.Username }
  | "email" => { target with Email := excluded.Email }
  | "first_name" => { target with FirstName := excluded.FirstName }
  | "middle_name" => { target with MiddleName := excluded.MiddleName }
  | "last_name" => { target with LastName := excluded.LastName }
  | "mobile" => { target with Mobile := excluded.Mobile }
  | "address" => { target with Address := excluded.Address }
  | "optin" => { target with Optin := excluded.Optin }
  | "metadata" => { target with Metadata := excluded.Metadata }
  | "is_admin" => { target with IsAdmin := excluded.IsAdmin }
  | "is_online" => { target with IsOnline := excluded.IsOnline }
  | "password" => { target with Password := excluded.Password }
  | "last_login" => { target with LastLogin := excluded.LastLogin }
  | "updated_at" => { target with app := { target.app with UpdatedAt := now } }
  | _ => target

/-- The `SET` part of `ON CONFLICT (uuid) DO UPDATE`, applied to the stored row. -/
def applySetClause (setClause : List String) (now : Time) (target excluded : User) : User :=
  setClause.foldl (assignColumn now excluded) target

/-- The row an `INSERT` of the model proposes: the persisted columns of the
struct, with the engine filling the generated ones (`id` from the sequence, the
external identifier and the two timestamps) where the struct holds the zero
value.  The computed projections are not columns. -/
def proposedRow (s : Store) (item : User) : User :=
  { item with
    ID := if item.ID = 0 then s.seq else item.ID
    Permissions := []
    Roles := []
    Groups := []
    app :=
      { item.app with
        UUID := if item.app.UUID = "" then s.genUUID s.seq else item.app.UUID
        CreatedAt := if item.app.CreatedAt = 0 then s.clock else item.app.CreatedAt
        UpdatedAt := if item.app.UpdatedAt = 0 then s.clock else item.app.UpdatedAt } }

/-- Unique columns of `users` besides the conflict target: `username`, `email`
and (when not NULL) `mobile`. -/
def clashesNatural (others : List User) (r : User) : Bool :=
  others.any (fun o =>
    o.Username == r.Username || o.Email == r.Email || (r.Mobile.isSome && o.Mobile == r.Mobile))

/-- Primary-key clash on `id`. -/
def clashesId (others : List User) (r : User) : Bool :=
  others.any (fun o => o.ID == r.ID)

/-- Values the engine hands back into the model after the write: the generated
columns of the stored row. -/
def writeBack (item row : User) : User :=
  { item with
    ID := row.ID
    app := { item.app with UUID := row.app.UUID, CreatedAt := row.app.CreatedAt,
                           UpdatedAt := row.app.UpdatedAt } }

/-- Execution of `INSERT INTO users ... ON CONFLICT (uuid) DO UPDATE SET setClause`
for the model `item`.  A stored row with the proposed external identifier is
updated in place through the set clause; otherwise the proposed row is appended.
A clash on another unique column fails the statement. -/
def insertOnConflictUUID (s : Store) (item : User) (setClause : List String) :
    Except Err (Store × User) :=
  let excluded := proposedRow s item
  let seq := if item.ID = 0 then s.seq + 1 else s.seq
  match s.users.find? (fun r => r.UUID == excluded.UUID) with
  | some old =>
    let upd := applySetClause setClause s.clock old excluded
    if clashesNatural (s.users.filter (fun r => r.UUID != excluded.UUID)) upd then
      Except.error Err.ConstraintViolation
    else
      Except.ok
        ({ s with users := s.users.map (fun r => if r.UUID == excluded.UUID then upd else r)
                  seq := seq },
         writeBack item upd)
  | none =>
    if clashesId s.users excluded || clashesNatural s.users excluded then
      Except.error Err.ConstraintViolation
    else
      Except.ok ({ s with users := s.users ++ [excluded], seq := seq }, writeBack item excluded)

/-- Modelled from the spec: `executeTransaction` (outside the two source files)
runs the callback inside one transaction, committing when it returns nil and
rolling the store back when it returns an error, which it passes on.  The
callback works on the model through a pointer, so the model is threaded along. -/
def executeTransaction (s : Store) (item : User)
    (fn : Store → User → Except Err (Store × User)) : Store × User × error :=
  match fn s item with
  | Except.ok (s1, item1) => (s1, item1, none)
  | Except.error e => (s, item, some e)

/-! ## users.go -/

/-- The local `setClauseColumns` of `Upsert`. -/
def setClauseColumns : List String :=
  [ "username",
    "email",
    "first_name",
    "middle_name",
    "last_name",
    "mobile",
    "address",
    "optin",
    "metadata",
    "is_admin",
    "updated_at" ]

/-- What `Upsert` produces: its three results, the audit calls it launched and the
store it leaves behind. -/
structure UpsertResult where
  httpStatus : Int
  item : User
  err : error
  audit : List AuditCall
  store : Store

/-- The first half of `Upsert`: `httpStatus`, `action` and `oldData` after the
lookup by external identifier. -/
def User.upsertDecision (s : Store) (item : User) : Int × String × Option User :=
  if item.UUID ≠ "" then
    match selectByUUID s item.UUID with
    | (tmp, none) => (200, "PUT", some tmp)
    | (_, some _) => (201, "POST", none)
  else (201, "POST", none)

/-- The set clause `Upsert` hands to `ON CONFLICT (uuid) DO UPDATE`. -/
def User.upsertSetClause (_item : User) : List String :=
  parseSetClause setClauseColumns

/-- `func (m User) Upsert(ctx, item User) (int, User, error)`. -/
def User.Upsert (s : Store) (item : User) : UpsertResult :=
  let d := User.upsertDecision s item
  let setClause := User.upsertSetClause item
  let t := executeTransaction s item (fun trx it => insertOnConflictUUID trx it setClause)
  { httpStatus := d.1
    item := t.2.1
    err := t.2.2
    audit := [{ oldValue := d.2.2, newValue := AuditValue.entity t.2.1, subjectId := t.2.1.ID,
                entityType := "user", action := d.2.1, err := t.2.2 }]
    store := t.1 }

/-! ### Roles and groups -/

/-- Row of the `RolesGroups` table expression: `(user_id, role_name, group_name)`. -/
structure RolesGroupsRow where
  user_id : Int
  role_name : Option String
  group_name : Option String
  deriving DecidableEq, Repr

/-- Row of the aggregating query: the two JSON arrays `roles` and `groups`. -/
structure RolesGroupsAgg where
  roles : List String
  groups : List String
  deriving DecidableEq, Repr

/-- SQL `A LEFT JOIN B ON cond`: every pair that satisfies the condition, and a
left row without partner once, padded with NULL. -/
def leftJoin {α β : Type} (as : List α) (bs : List β) (cond : α → β → Bool) :
    List (α × Option β) :=
  as.flatMap (fun a =>
    match bs.filter (cond a) with
    | [] => [(a, none)]
    | m :: ms => (m :: ms).map (fun b => (a, some b)))

/-- The shared shape of the two sub-selects of `rolesGroupsUnion`:
`users AS u LEFT JOIN junction j ON j.user_id = u.id AND j.deleted_at IS NULL AND
j.status = 'O' LEFT JOIN named t ON t.id = j.target_id`, projected to the user id
and the name. -/
def edgeNames (users : List User) (junction : List Edge) (named : List Named) :
    List (Int × Option String) :=
  (leftJoin
      (leftJoin users junction
        (fun u j => j.user_id == u.ID && j.deleted_at.isNone && j.status == some "O"))
      named
      (fun uj t =>
        match uj.2 with
        | some j => t.id == j.target_id
        | none => false)).map
    (fun x => (x.1.1.ID, x.2.bind (fun t => t.name)))

/-- `func (m User) rolesGroupsUnion() *bun.SelectQuery`: the roles select
`(u.id, r.name, NULL)` in set union (duplicates removed) with the groups select
`(u.id, NULL, g.name)`. -/
def User.rolesGroupsUnion (s : Store) : List RolesGroupsRow :=
  let rolesQuery : List RolesGroupsRow :=
    (edgeNames s.users s.user_roles s.roles).map
      (fun x => { user_id := x.1, role_name := x.2, group_name := none })
  let groupsQuery : List RolesGroupsRow :=
    (edgeNames s.users s.user_groups s.groups).map
      (fun x => { user_id := x.1, role_name := none, group_name := x.2 })
  (rolesQuery ++ groupsQuery).dedup

/-- `JSON_ARRAYAGG(expr)`: the non-NULL values of the group, as an array. -/
def jsonArrayAgg (vals : List (Option String)) : List String :=
  vals.filterMap id

/-- The select built by `GetRolesGroups`, one entry per group of `GROUP BY u.id`
(the key is kept next to the two aggregates it labels). -/
def User.rolesGroupsQuery (s : Store) (uuid : String) : List (Int × RolesGroupsAgg) :=
  let joined :=
    (leftJoin s.users (User.rolesGroupsUnion s) (fun u rg => rg.user_id == u.ID)).filter
      (fun x => x.1.UUID == uuid && x.1.app.Status == "O" && x.1.app.DeletedAt.isNone)
  let keys := (joined.map (fun x => x.1.ID)).dedup
  keys.map (fun k =>
    let grp := joined.filter (fun x => x.1.ID == k)
    (k, { roles := jsonArrayAgg (grp.map (fun x => x.2.bind (fun rg => rg.role_name)))
          groups := jsonArrayAgg (grp.map (fun x => x.2.bind (fun rg => rg.group_name))) }))

/-- The anonymous struct `userPerm` of `Read`: a `User` with its own
`permissions`, `roles` and `groups` columns. -/
structure UserPerm where
  User : User
  Permissions : List String
  Roles : List String
  Groups : List String
  deriving DecidableEq, Repr

/-- Go zero value of the `userPerm` struct. -/
def UserPerm.zero : UserPerm :=
  { User := User.zero, Permissions := [], Roles := [], Groups := [] }

/-- The five results of `setStatus` and the store it leaves behind. -/
structure SetStatusResult where
  id : Int
  deletedAt : Time
  status : String
  msg : String
  err : error
  store : Store

/-- Package code outside the two source files, taken as parameters. -/
structure Helpers where
  /-- `setStatus(ctx, table, uuid, field)` -/
  setStatus : Store → String → String → String → SetStatusResult
  /-- `utils.GetPermissions(where, ctx, dest)` with `where` the filter
  `u.uuid = uuid`: the filled destination and whatever the helper returns -/
  GetPermissions : Store → String → UserPerm → UserPerm × error
  /-- `Scan(ctx, dest)` of the rows of the roles and groups select -/
  scanRolesGroups : List RolesGroupsAgg → UserPerm → UserPerm × error
  /-- `sanitizeQuery(q.Model(data), qp, coalesceCols, allowedSortFields)` followed
  by `ScanAndCount`: the rows scanned into `data`, the count and the error -/
  sanitizedScanAndCount :
    Store → QueryParams → List String → List (String × Bool) → List User × Int × error

/-- `func (m User) GetRolesGroups(qp QueryParams, dest ...any) error`. -/
def User.GetRolesGroups (h : Helpers) (s : Store) (qp : QueryParams) (dest : UserPerm) :
    UserPerm × error :=
  let q := (User.rolesGroupsQuery s qp.UUID).map (fun x => x.2)
  h.scanRolesGroups q dest

/-- `func (m User) Read(qp QueryParams) (res Results, err error)`. -/
def User.Read (h : Helpers) (s : Store) (qp : QueryParams) : Results × error :=
  let coalesceCols := ["username", "first_name", "middle_name", "last_name"]
  let allowedSortFields := [("username", true), ("email", true)]
  let res : Results := Results.zero
  let err : error := none
  if qp.UUID ≠ "all" then
    let userPerm := (h.GetPermissions s qp.UUID UserPerm.zero).1
    let item := userPerm.User
    let item := { item with Permissions := userPerm.Permissions }
    let rg := User.GetRolesGroups h s qp userPerm
    let item :=
      match rg.2 with
      | none => { item with Roles := rg.1.Roles, Groups := rg.1.Groups }
      | some _ => item
    let res := { res with Item := some item }
    (res, err)
  else
    let q := h.sanitizedScanAndCount s qp coalesceCols allowedSortFields
    let data := q.1
    let res := { res with Count := q.2.1 }
    let err := q.2.2
    let res := data.foldl (fun (acc : Results) item => { acc with Items := acc.Items ++ [item] }) res
    (res, err)

/-- What `Delete` produces: its three results, the audit calls it launched and the
store it leaves behind. -/
structure DeleteResult where
  deletedAt : Time
  msg : String
  err : error
  audit : List AuditCall
  store : Store

/-- `func (m User) Delete(ctx, uuid string) (deletedAt time.Time, msg string, err error)`. -/
def User.Delete (h : Helpers) (s : Store) (uuid : String) : DeleteResult :=
  let r := h.setStatus s "users" uuid "deleted_at"
  { deletedAt := r.deletedAt
    msg := r.msg
    err := r.err
    audit := [{ oldValue := none, newValue := AuditValue.deletedAt r.deletedAt, subjectId := r.id,
                entityType := "user", action := "DELETE", err := r.err }]
    store := r.store }

/-- What `UpdateStatus` produces: its three results, the audit calls it launched
and the store it leaves behind. -/
structure UpdateStatusResult where
  status : String
  msg : String
  err : error
  audit : List AuditCall
  store : Store

/-- `func (m User) UpdateStatus(ctx, uuid string) (status, msg string, err error)`. -/
def User.UpdateStatus (h : Helpers) (s : Store) (uuid : String) : UpdateStatusResult :=
  let r := h.setStatus s "users" uuid "status"
  { status := r.status
    msg := r.msg
    err := r.err
    audit := [{ oldValue := none, newValue := AuditValue.status r.status, subjectId := r.id,
                entityType := "user", action := "PATCH", err := r.err }]
    store := r.store }

/-! ## authentication.go -/

/-- `func (m Authentication) Login(ctx, username string) (user User, err error)`:
scan of `SELECT ... FROM users WHERE (username = ?) OR (email = ?)` into `user`. -/
def Authentication.Login (s : Store) (username : String) : User × error :=
  match s.users.find? (fun r => r.Username == username || r.Email == username) with
  | some r => (r, none)
  | none => (User.zero, some Err.ErrNoRows)

/-! ## Concrete stores and helper behaviours for evaluation -/

/-- Modelled from the spec: the Permission Resolver `utils.GetPermissions` (outside
the two source files) looks the entity up by external identifier and fills the
destination, and returns the `NotFound` kind when no row matches.  Permission
grants are not part of `Store`, so the permission list stays as it was. -/
def specGetPermissions (s : Store) (uuid : String) (dest : UserPerm) : UserPerm × error :=
  match s.users.find? (fun r => r.UUID == uuid) with
  | some r => ({ dest with User := r }, none)
  | none => (dest, some Err.ErrNoRows)

/-- Modelled from the spec: the State Transition Engine `setStatus` (outside the two
source files) locates the row by external identifier (`NotFound` if absent); for
`deleted_at` it sets the deletion time to now unless one is already set, which it
then returns unchanged; for `status` it moves the status code to its complement
among the active code and `inactive`. -/
def specSetStatus (inactive : String) (s : Store) (_table uuid field : String) :
    SetStatusResult :=
  match s.users.find? (fun r => r.UUID == uuid) with
  | none => { id := 0, deletedAt := 0, status := "", msg := "not found",
              err := some Err.ErrNoRows, store := s }
  | some r =>
    let t := if field = "deleted_at" then r.app.DeletedAt.getD s.clock else 0
    let st := if field = "status" then (if r.app.Status = "O" then inactive else "O") else ""
    let upd (x : User) : User :=
      if field = "deleted_at" then { x with app := { x.app with DeletedAt := some t } }
      else if field = "status" then { x with app := { x.app with Status := st } }
      else x
    { id := r.ID, deletedAt := t, status := st, msg := "ok", err := none,
      store := { s with users := s.users.map (fun x => if x.UUID == uuid then upd x else x) } }

/-- Helper behaviours used to evaluate the operations on concrete inputs: the two
spec-modelled helpers above, a scan that copies the first aggregate row (and
reports `ErrNoRows` when there is none), and a collection query without search
text, sort or paging (the alive rows in table order and their number). -/
def specHelpers : Helpers :=
  { setStatus := specSetStatus "X"
    GetPermissions := specGetPermissions
    scanRolesGroups := fun rows dest =>
      match rows with
      | [] => (dest, some Err.ErrNoRows)
      | r :: _ => ({ dest with Roles := r.roles, Groups := r.groups }, none)
    sanitizedScanAndCount := fun s _ _ _ =>
      (s.users.filter (fun r => r.app.DeletedAt.isNone),
       ((s.users.filter (fun r => r.app.DeletedAt.isNone)).length : Int), none) }

/-- A stored user with the given id, external identifier, username and email,
alive and active. -/
def mkUser (id : Int) (uuid username email : String) : User :=
  { User.zero with
    ID := id, Username := username, Email := email,
    app := { UUID := uuid, CreatedAt := 1, UpdatedAt := 1, DeletedAt := none, Status := "O" } }

/-- A store without rows. -/
def emptyStore : Store :=
  { users := [], user_roles := [], roles := [], user_groups := [], groups := [],
    seq := 1, genUUID := fun n => "gen-" ++ toString n, clock := 5 }

/-- A store with two users. -/
def twoUsers : Store :=
  { emptyStore with
    users := [mkUser 1 "u-1" "alice" "a@x.com", mkUser 2 "u-2" "bob" "b@x.com"]
    seq := 3 }

/-- Query parameters that only carry an external identifier. -/
def qpFor (uuid : String) : QueryParams :=
  { UUID := uuid, Search := "", SortField := "", SortDir := "", Page := 0, Limit := 0 }

/-- The alive, active-status junction rows of the user with internal id `uid`. -/
def activeEdges (junction : List Edge) (uid : Int) : List Edge :=
  junction.filter (fun j => j.user_id == uid && j.deleted_at.isNone && j.status == some "O")

/-- The non-NULL names the alive, active edges of a user lead to, one entry per
edge and matching named row. -/
def reachedNames (junction : List Edge) (named : List Named) (uid : Int) : List String :=
  (activeEdges junction uid).flatMap (fun j =>
    (named.filter (fun t => t.id == j.target_id)).filterMap (fun t => t.name))

/-- The row and the payload hold the same value in every data column of the
conflict-update list (all of `setClauseColumns` but `updated_at`). -/
def agreesOnSetColumns (row item : User) : Prop :=
  row.Username = item.Username ∧ row.Email = item.Email ∧
  row.FirstName = item.FirstName ∧ row.MiddleName = item.MiddleName ∧
  row.LastName = item.LastName ∧ row.Mobile = item.Mobile ∧
  row.Address = item.Address ∧ row.Optin = item.Optin ∧
  row.Metadata = item.Metadata ∧ row.IsAdmin = item.IsAdmin

/-- The row with its update time set to `t`, every other column kept. -/
def touch (row : User) (t : Time) : User :=
  { row with app := { row.app with UpdatedAt := t } }

/-- An alive, active junction row from user `uid` to target `tid`. -/
def edgeOn (uid tid : Int) : Edge :=
  { user_id := uid, target_id := tid, deleted_at := none, status := some "O" }

/-- A store in which user 1 has two roles (and a soft-deleted third edge) and no
group, user 2 has one role and one group, and user 3 only a suspended edge. -/
def rgStore : Store :=
  { emptyStore with
    users := [mkUser 1 "u-1" "alice" "a@x.com", mkUser 2 "u-2" "bob" "b@x.com",
              mkUser 3 "u-3" "carol" "c@x.com"]
    roles := [{ id := 1, name := some "admin" }, { id := 2, name := some "editor" }]
    groups := [{ id := 1, name := some "staff" }]
    user_roles := [edgeOn 1 1, edgeOn 1 2, { edgeOn 1 2 with deleted_at := some 3 },
                   { edgeOn 3 1 with status := some "X" }, edgeOn 2 1]
    user_groups := [edgeOn 2 1]
    seq := 4 }

/-- A store in which the one user holds the same role through two alive, active
junction rows. -/
def dupStore : Store :=
  { emptyStore with
    users := [mkUser 1 "u-1" "alice" "a@x.com"]
    roles := [{ id := 1, name := some "admin" }]
    user_roles := [edgeOn 1 1, edgeOn 1 1]
    seq := 2 }

/-- A store in which the one user holds two different roles that carry the same
name. -/
def sameNameStore : Store :=
  { emptyStore with
    users := [mkUser 1 "u-1" "alice" "a@x.com"]
    roles := [{ id := 1, name := some "admin" }, { id := 2, name := some "admin" }]
    user_roles := [edgeOn 1 1, edgeOn 1 2]
    seq := 2 }

/-- A payload for the stored identifier `u-1` with new username and email. -/
def renamedAlice : User := mkUser 0 "u-1" "alice2" "a2@x.com"

/-- A payload whose identifier `u-9` is not stored yet. -/
def newCarol : User := mkUser 0 "u-9" "carol" "c@x.com"

/-! ## Properties -/

/-- The lookup by external identifier succeeds exactly when some stored row
carries the identifier. -/
theorem selectByUUID_nil_iff (s : Store) (uuid : String) :
    (selectByUUID s uuid).2 = none ↔ ∃ r ∈ s.users, r.UUID = uuid := by
  unfold selectByUUID
  cases hf : s.users.find? (fun r => r.UUID == uuid) with
  | none =>
    simp only [reduceCtorEq, false_iff, not_exists, not_and]
    intro r hr
    have := List.find?_eq_none.mp hf r hr
    simpa using this
  | some r =>
    simp only [true_iff]
    exact ⟨r, List.mem_of_find?_eq_some hf, by simpa using List.find?_some hf⟩

/-- The decision taken by the first half of `Upsert`, by cases on the lookup. -/
theorem upsertDecision_eq (s : Store) (item : User) :
    User.upsertDecision s item =
      if item.UUID ≠ "" ∧ (selectByUUID s item.UUID).2 = none
      then (200, "PUT", some (selectByUUID s item.UUID).1)
      else (201, "POST", none) := by
  unfold User.upsertDecision
  by_cases hu : item.UUID = ""
  · simp [hu]
  · rcases hsel : selectByUUID s item.UUID with ⟨tmp, e⟩
    cases e <;> simp [hu]

/-- The hint is 200 exactly when the identifier is non-empty and stored. -/
theorem Upsert_hint_200_iff (s : Store) (item : User) :
    (User.Upsert s item).httpStatus = 200 ↔
      (item.UUID ≠ "" ∧ ∃ r ∈ s.users, r.UUID = item.UUID) := by
  have hd := upsertDecision_eq s item
  have hs := selectByUUID_nil_iff s item.UUID
  unfold User.Upsert
  simp only [hd]
  by_cases hc : item.UUID ≠ "" ∧ (selectByUUID s item.UUID).2 = none
  · have hc2 : item.UUID ≠ "" ∧ ∃ r ∈ s.users, r.UUID = item.UUID := ⟨hc.1, hs.mp hc.2⟩
    simp [hc, hc2]
  · have hc2 : ¬ (item.UUID ≠ "" ∧ ∃ r ∈ s.users, r.UUID = item.UUID) :=
      fun h => hc ⟨h.1, hs.mpr h.2⟩
    simp [hc, hc2]

/-- The hint is 200 or 201. -/
theorem Upsert_hint_cases (s : Store) (item : User) :
    (User.Upsert s item).httpStatus = 200 ∨ (User.Upsert s item).httpStatus = 201 := by
  have hd := upsertDecision_eq s item
  unfold User.Upsert
  simp only [hd]
  by_cases hc : item.UUID ≠ "" ∧ (selectByUUID s item.UUID).2 = none
  · left; simp [hc]
  · right; simp [hc]

/-- C1: `Upsert` returns status hint 200 exactly when the candidate's external
identifier is non-empty and the lookup by it finds a stored row, and 201 in every
other case. -/
theorem Upsert_status_hint (s : Store) (item : User) :
    ((User.Upsert s item).httpStatus = 200 ↔
        (item.UUID ≠ "" ∧ ∃ r ∈ s.users, r.UUID = item.UUID)) ∧
    ((User.Upsert s item).httpStatus = 201 ↔
        ¬ (item.UUID ≠ "" ∧ ∃ r ∈ s.users, r.UUID = item.UUID)) := by
  have h200 := Upsert_hint_200_iff s item
  refine ⟨h200, ?_⟩
  rcases Upsert_hint_cases s item with h | h
  · rw [h]
    exact ⟨fun hx => absurd hx (by decide), fun hx => absurd (h200.mp h) hx⟩
  · rw [h]
    refine ⟨fun _ hx => ?_, fun _ => rfl⟩
    have := h200.mpr hx
    rw [h] at this
    exact absurd this (by decide)

/-- C3: each of `Upsert`, `Delete` and `UpdateStatus` launches exactly one audit
call, tagged `user`, that carries the error the operation returns: the error of
the transaction for `Upsert`, the error of `setStatus` for the other two. -/
theorem mutation_audits_once (h : Helpers) (s : Store) (item : User) (uuid : String) :
    (∃ a, (User.Upsert s item).audit = [a] ∧ a.entityType = "user" ∧
        a.err = (User.Upsert s item).err ∧
        a.err = (executeTransaction s item
          (fun trx it => insertOnConflictUUID trx it (User.upsertSetClause item))).2.2) ∧
    (∃ a, (User.Delete h s uuid).audit = [a] ∧ a.entityType = "user" ∧
        a.err = (User.Delete h s uuid).err ∧
        a.err = (h.setStatus s "users" uuid "deleted_at").err) ∧
    (∃ a, (User.UpdateStatus h s uuid).audit = [a] ∧ a.entityType = "user" ∧
        a.err = (User.UpdateStatus h s uuid).err ∧
        a.err = (h.setStatus s "users" uuid "status").err) :=
  ⟨⟨_, rfl, rfl, rfl, rfl⟩, ⟨_, rfl, rfl, rfl, rfl⟩, ⟨_, rfl, rfl, rfl, rfl⟩⟩

/-- The conflict update of `Upsert`, column by column. -/
theorem applySetClause_upsert (item target excluded : User) (now : Time) :
    applySetClause (User.upsertSetClause item) now target excluded =
      { target with
        Username := excluded.Username, Email := excluded.Email,
        FirstName := excluded.FirstName, MiddleName := excluded.MiddleName,
        LastName := excluded.LastName, Mobile := excluded.Mobile,
        Address := excluded.Address, Optin := excluded.Optin,
        Metadata := excluded.Metadata, IsAdmin := excluded.IsAdmin,
        app := { target.app with UpdatedAt := now } } := by
  simp [applySetClause, User.upsertSetClause, parseSetClause, setClauseColumns, assignColumn]

/-- C4: the set clause `Upsert` passes to the conflict update is built from one
fixed column list whatever the candidate is; the list holds `updated_at` and none
of `id`, `uuid`, `created_at`, so the update keeps those three columns of the
stored row and refreshes its update time. -/
theorem Upsert_set_clause_fixed (item other target excluded : User) (now : Time) :
    User.upsertSetClause item = parseSetClause setClauseColumns ∧
    User.upsertSetClause item = User.upsertSetClause other ∧
    "updated_at" ∈ setClauseColumns ∧
    "id" ∉ setClauseColumns ∧ "uuid" ∉ setClauseColumns ∧ "created_at" ∉ setClauseColumns ∧
    (applySetClause (User.upsertSetClause item) now target excluded).ID = target.ID ∧
    (applySetClause (User.upsertSetClause item) now target excluded).UUID = target.UUID ∧
    (applySetClause (User.upsertSetClause item) now target excluded).app.CreatedAt
      = target.app.CreatedAt ∧
    (applySetClause (User.upsertSetClause item) now target excluded).app.UpdatedAt = now := by
  have hset := applySetClause_upsert item target excluded now
  refine ⟨rfl, rfl, by decide, by decide, by decide, by decide, ?_, ?_, ?_, ?_⟩ <;>
    simp [hset, User.UUID]

/-- The append loop of `Read` copies the scanned rows in order. -/
theorem foldl_append_items (data : List User) (res : Results) :
    data.foldl (fun (acc : Results) item => { acc with Items := acc.Items ++ [item] }) res =
      { res with Items := res.Items ++ data } := by
  induction data generalizing res with
  | nil => simp
  | cons x xs ih => simp [ih]

/-- On the single-entity path the named result `err` of `Read` is never assigned:
whatever the helpers report, the caller receives a nil error. -/
theorem Read_single_err_nil (h : Helpers) (s : Store) (qp : QueryParams)
    (hq : qp.UUID ≠ "all") : (User.Read h s qp).2 = none := by
  simp [User.Read, hq]

/-- C2 (evaluation at the failing input): reading an identifier that matches no row
of an empty store hands back a zero entity and a nil error, although the
permission lookup and the roles and groups scan both report `ErrNoRows`. -/
theorem Read_missing_uuid_nil_error :
    User.Read specHelpers emptyStore (qpFor "missing")
      = ({ Item := some User.zero, Items := [], Count := 0 }, none) ∧
    (specHelpers.GetPermissions emptyStore "missing" UserPerm.zero).2 = some Err.ErrNoRows ∧
    (User.GetRolesGroups specHelpers emptyStore (qpFor "missing") UserPerm.zero).2
      = some Err.ErrNoRows := by
  refine ⟨?_, ?_, ?_⟩ <;> decide

/-- C5: `Read` is dispatched by the sentinel test alone.  With `all` the result
holds no single item, the rows of the sanitized query in their order (hence as
many) and its count; otherwise it holds a single item, no collection and count 0. -/
theorem Read_dispatch (h : Helpers) (s : Store) (qp : QueryParams) :
    (qp.UUID = "all" ∧
      (User.Read h s qp).1.Item = none ∧
      (User.Read h s qp).1.Items =
        (h.sanitizedScanAndCount s qp ["username", "first_name", "middle_name", "last_name"]
          [("username", true), ("email", true)]).1 ∧
      (User.Read h s qp).1.Items.length =
        (h.sanitizedScanAndCount s qp ["username", "first_name", "middle_name", "last_name"]
          [("username", true), ("email", true)]).1.length ∧
      (User.Read h s qp).1.Count =
        (h.sanitizedScanAndCount s qp ["username", "first_name", "middle_name", "last_name"]
          [("username", true), ("email", true)]).2.1) ∨
    (qp.UUID ≠ "all" ∧
      (∃ item, (User.Read h s qp).1.Item = some item) ∧
      (User.Read h s qp).1.Items = [] ∧
      (User.Read h s qp).1.Count = 0) := by
  by_cases hq : qp.UUID = "all"
  · left
    simp [User.Read, hq, foldl_append_items, Results.zero]
  · right
    refine ⟨hq, ?_⟩
    simp [User.Read, hq, Results.zero]

/-- C8: `Delete` returns the deletion time, message and error of
`setStatus(ctx, "users", uuid, "deleted_at")` and `UpdateStatus` the status, message
and error of `setStatus(ctx, "users", uuid, "status")`, each value unchanged. -/
theorem Delete_UpdateStatus_pass_through (h : Helpers) (s : Store) (uuid : String) :
    ((User.Delete h s uuid).deletedAt = (h.setStatus s "users" uuid "deleted_at").deletedAt ∧
      (User.Delete h s uuid).msg = (h.setStatus s "users" uuid "deleted_at").msg ∧
      (User.Delete h s uuid).err = (h.setStatus s "users" uuid "deleted_at").err) ∧
    ((User.UpdateStatus h s uuid).status = (h.setStatus s "users" uuid "status").status ∧
      (User.UpdateStatus h s uuid).msg = (h.setStatus s "users" uuid "status").msg ∧
      (User.UpdateStatus h s uuid).err = (h.setStatus s "users" uuid "status").err) :=
  ⟨⟨rfl, rfl, rfl⟩, ⟨rfl, rfl, rfl⟩⟩

/-- C9: `Login` selects on `username = s OR email = s`.  It returns a nil error
exactly when some row has that username or email, the row it then returns is a
stored row with username or email `s`, and otherwise it returns `ErrNoRows` and
the zero value. -/
theorem Login_selects (s : Store) (name : String) :
    ((Authentication.Login s name).2 = none ↔
        ∃ r ∈ s.users, r.Username = name ∨ r.Email = name) ∧
    ((Authentication.Login s name).2 = none →
        (Authentication.Login s name).1 ∈ s.users ∧
        ((Authentication.Login s name).1.Username = name ∨
          (Authentication.Login s name).1.Email = name)) ∧
    ((∀ r ∈ s.users, r.Username ≠ name ∧ r.Email ≠ name) →
        Authentication.Login s name = (User.zero, some Err.ErrNoRows)) := by
  unfold Authentication.Login
  cases hf : s.users.find? (fun r => r.Username == name || r.Email == name) with
  | none =>
    have hn := List.find?_eq_none.mp hf
    refine ⟨?_, ?_, ?_⟩
    · simp only [reduceCtorEq, false_iff, not_exists, not_and]
      intro r hr
      simpa using hn r hr
    · intro hcontra
      simp at hcontra
    · intro _
      rfl
  | some r =>
    have hm := List.mem_of_find?_eq_some hf
    have hp : r.Username = name ∨ r.Email = name := by simpa using List.find?_some hf
    refine ⟨?_, ?_, ?_⟩
    · simp only [true_iff]
      exact ⟨r, hm, hp⟩
    · intro _
      exact ⟨hm, hp⟩
    · intro hall
      rcases hp with hp | hp
      · exact absurd hp (hall r hm).1
      · exact absurd hp (hall r hm).2

/-- Witness for C9 on a two-row table: `a@x.com` selects the first row through its
email, and no row answers to `carol`. -/
theorem Login_selects_witness :
    ((Authentication.Login twoUsers "a@x.com").2 = none ∧
      (Authentication.Login twoUsers "a@x.com").1 = mkUser 1 "u-1" "alice" "a@x.com") ∧
    Authentication.Login twoUsers "carol" = (User.zero, some Err.ErrNoRows) :=
  ⟨⟨by decide, by decide⟩,
   (Login_selects twoUsers "carol").2.2 (by decide)⟩

/-- C10: the one audit call of `Upsert` agrees with the status hint: either the
hint is 201, the action `POST` and there is no old value, or the hint is 200, the
action `PUT` and the old value is the row the lookup by external identifier found
in the store before the write. -/
theorem Upsert_audit_matches_hint (s : Store) (item : User) :
    ∃ a, (User.Upsert s item).audit = [a] ∧
      (((User.Upsert s item).httpStatus = 201 ∧ a.action = "POST" ∧ a.oldValue = none) ∨
       ((User.Upsert s item).httpStatus = 200 ∧ a.action = "PUT" ∧
          item.UUID ≠ "" ∧
          (selectByUUID s item.UUID).2 = none ∧
          a.oldValue = some (selectByUUID s item.UUID).1 ∧
          a.oldValue = s.users.find? (fun r => r.UUID == item.UUID))) := by
  refine ⟨_, rfl, ?_⟩
  have hd := upsertDecision_eq s item
  simp only [User.Upsert, hd]
  by_cases hc : item.UUID ≠ "" ∧ (selectByUUID s item.UUID).2 = none
  · right
    have hfind : some (selectByUUID s item.UUID).1 = s.users.find? (fun r => r.UUID == item.UUID) := by
      have h2 := hc.2
      unfold selectByUUID at h2 ⊢
      cases hf : s.users.find? (fun r => r.UUID == item.UUID) with
      | none => simp [hf] at h2
      | some r => simp
    rw [if_pos hc]
    exact ⟨rfl, rfl, hc.1, hc.2, rfl, hfind⟩
  · left
    rw [if_neg hc]
    exact ⟨rfl, rfl, rfl⟩

/-! ### Roles and groups query -/

/-- Matched pairs of a left join. -/
theorem mem_leftJoin_some {α β : Type} (as : List α) (bs : List β) (cond : α → β → Bool)
    (a : α) (b : β) :
    (a, some b) ∈ leftJoin as bs cond ↔ a ∈ as ∧ b ∈ bs ∧ cond a b = true := by
  unfold leftJoin
  simp only [List.mem_flatMap]
  constructor
  · rintro ⟨a', ha', hmem⟩
    cases hf : bs.filter (cond a') with
    | nil => simp [hf] at hmem
    | cons m ms =>
      rw [hf] at hmem
      simp only [List.mem_map, Prod.mk.injEq, Option.some.injEq] at hmem
      obtain ⟨b', hb', rfl, rfl⟩ := hmem
      have : b' ∈ bs.filter (cond a') := by rw [hf]; exact hb'
      rw [List.mem_filter] at this
      exact ⟨ha', this.1, this.2⟩
  · rintro ⟨ha, hb, hc⟩
    refine ⟨a, ha, ?_⟩
    have hin : b ∈ bs.filter (cond a) := List.mem_filter.mpr ⟨hb, hc⟩
    cases hf : bs.filter (cond a) with
    | nil => rw [hf] at hin; simp at hin
    | cons m ms =>
      rw [hf] at hin
      exact List.mem_map.mpr ⟨b, hin, rfl⟩

/-- A non-NULL name is in the edge select for `uid` exactly when a user row has
that id and an alive, active edge of it leads to the name. -/
theorem mem_edgeNames_some (users : List User) (junction : List Edge) (named : List Named)
    (uid : Int) (n : String) :
    (uid, some n) ∈ edgeNames users junction named ↔
      (∃ u ∈ users, u.ID = uid) ∧ n ∈ reachedNames junction named uid := by
  unfold edgeNames reachedNames activeEdges
  simp only [List.mem_map, Prod.mk.injEq, List.mem_flatMap, List.mem_filter, List.mem_filterMap]
  constructor
  · rintro ⟨⟨⟨u, oj⟩, ot⟩, hmem, hid, hname⟩
    cases ot with
    | none => simp at hname
    | some t =>
      rw [mem_leftJoin_some] at hmem
      obtain ⟨h1, ht, hc⟩ := hmem
      cases oj with
      | none => simp at hc
      | some j =>
        rw [mem_leftJoin_some] at h1
        obtain ⟨hu, hj, hcj⟩ := h1
        simp only at hid hc hname hcj
        subst hid
        refine ⟨⟨u, hu, rfl⟩, j, ⟨hj, hcj⟩, t, ⟨ht, hc⟩, ?_⟩
        simpa using hname
  · rintro ⟨⟨u, hu, rfl⟩, j, ⟨hj, hcj⟩, t, ⟨ht, hc⟩, hname⟩
    refine ⟨((u, some j), some t), ?_, rfl, ?_⟩
    · rw [mem_leftJoin_some]
      refine ⟨?_, ht, hc⟩
      rw [mem_leftJoin_some]
      exact ⟨hu, hj, hcj⟩
    · simpa using hname

/-- A duplicate-free list whose members all equal `c`, and that holds `c`, is `[c]`. -/
theorem eq_singleton_of_nodup {α : Type} (l : List α) (c : α) (hn : l.Nodup) (hc : c ∈ l)
    (hall : ∀ x ∈ l, x = c) : l = [c] := by
  match l, hn, hc, hall with
  | [], _, hc, _ => simp at hc
  | [a], _, _, hall => rw [hall a (by simp)]
  | a :: b :: t, hn, _, hall =>
    have ha := hall a (by simp)
    have hb := hall b (by simp)
    rw [ha, hb] at hn
    simp at hn

/-- A filter on the left columns commutes with the left join. -/
theorem filter_leftJoin {α β : Type} (as : List α) (bs : List β) (cond : α → β → Bool)
    (p : α → Bool) :
    (leftJoin as bs cond).filter (fun x => p x.1) = leftJoin (as.filter p) bs cond := by
  induction as with
  | nil => simp [leftJoin]
  | cons a as ih =>
    have hcons : ∀ (l : List α), leftJoin (a :: l) bs cond =
        leftJoin [a] bs cond ++ leftJoin l bs cond := by
      intro l; simp [leftJoin]
    rw [hcons, List.filter_append, ih]
    have hhead : (leftJoin [a] bs cond).filter (fun x => p x.1) =
        if p a then leftJoin [a] bs cond else [] := by
      simp only [leftJoin, List.flatMap_cons, List.flatMap_nil, List.append_nil]
      cases hf : bs.filter (cond a) with
      | nil => cases hp : p a <;> simp [hp]
      | cons m ms =>
        cases hp : p a
        · simp [List.filter_eq_nil_iff, hp]
        · simp only [if_true]
          rw [List.filter_eq_self]
          intro x hx
          simp only [List.mem_map] at hx
          obtain ⟨b, _, rfl⟩ := hx
          exact hp
    rw [hhead]
    cases hp : p a
    · simp [List.filter_cons, hp]
    · simp only [if_true, List.filter_cons, hp]
      exact (hcons _).symm

/-- The JSON aggregate over the joined rows of one left row collects the non-NULL
values of its partners. -/
theorem leftJoin_single_agg {α β : Type} (a : α) (bs : List β) (cond : α → β → Bool)
    (f : β → Option String) :
    jsonArrayAgg ((leftJoin [a] bs cond).map (fun x => x.2.bind f)) =
      (bs.filter (cond a)).filterMap f := by
  simp only [leftJoin, List.flatMap_cons, List.flatMap_nil, List.append_nil, jsonArrayAgg]
  cases hf : bs.filter (cond a) with
  | nil => simp
  | cons m ms =>
    simp only [List.map_map, List.filterMap_map]
    rfl

/-- The join of one left row is not empty and all its rows start with that row. -/
theorem leftJoin_single_fst {α β : Type} (a : α) (bs : List β) (cond : α → β → Bool) :
    leftJoin [a] bs cond ≠ [] ∧ ∀ x ∈ leftJoin [a] bs cond, x.1 = a := by
  simp only [leftJoin, List.flatMap_cons, List.flatMap_nil, List.append_nil]
  cases hf : bs.filter (cond a) with
  | nil => simp
  | cons m ms => simp

/-- Rows of the union: a role row with NULL group, or a group row with NULL role. -/
theorem mem_rolesGroupsUnion (s : Store) (row : RolesGroupsRow) :
    row ∈ User.rolesGroupsUnion s ↔
      (row.group_name = none ∧
        (row.user_id, row.role_name) ∈ edgeNames s.users s.user_roles s.roles) ∨
      (row.role_name = none ∧
        (row.user_id, row.group_name) ∈ edgeNames s.users s.user_groups s.groups) := by
  unfold User.rolesGroupsUnion
  simp only [List.mem_dedup, List.mem_append, List.mem_map]
  constructor
  · rintro (⟨x, hx, rfl⟩ | ⟨x, hx, rfl⟩)
    · left; exact ⟨rfl, hx⟩
    · right; exact ⟨rfl, hx⟩
  · rintro (⟨hg, hx⟩ | ⟨hr, hx⟩)
    · left
      refine ⟨_, hx, ?_⟩
      cases row; simp_all
    · right
      refine ⟨_, hx, ?_⟩
      cases row; simp_all

/-- Role names of distinct union rows of one user are distinct. -/
theorem nodup_filterMap_role (L : List RolesGroupsRow) (uid : Int) (hL : L.Nodup)
    (hrow : ∀ row ∈ L, row.user_id = uid ∧ (row.role_name ≠ none → row.group_name = none)) :
    (L.filterMap (fun row => row.role_name)).Nodup := by
  induction L with
  | nil => simp
  | cons row rest ih =>
    rw [List.nodup_cons] at hL
    have ih2 := ih hL.2 (fun r hr => hrow r (List.mem_cons_of_mem _ hr))
    cases hn : row.role_name with
    | none => simpa [List.filterMap_cons, hn] using ih2
    | some n =>
      simp only [List.filterMap_cons, hn, List.nodup_cons]
      refine ⟨?_, ih2⟩
      intro hmem
      rw [List.mem_filterMap] at hmem
      obtain ⟨r2, hr2, hr2n⟩ := hmem
      have h1 := hrow row (List.mem_cons_self _ _)
      have h2 := hrow r2 (List.mem_cons_of_mem _ hr2)
      have : r2 = row := by
        cases r2; cases row
        simp_all
      exact hL.1 (this ▸ hr2)

/-- Group names of distinct union rows of one user are distinct. -/
theorem nodup_filterMap_group (L : List RolesGroupsRow) (uid : Int) (hL : L.Nodup)
    (hrow : ∀ row ∈ L, row.user_id = uid ∧ (row.group_name ≠ none → row.role_name = none)) :
    (L.filterMap (fun row => row.group_name)).Nodup := by
  induction L with
  | nil => simp
  | cons row rest ih =>
    rw [List.nodup_cons] at hL
    have ih2 := ih hL.2 (fun r hr => hrow r (List.mem_cons_of_mem _ hr))
    cases hn : row.group_name with
    | none => simpa [List.filterMap_cons, hn] using ih2
    | some n =>
      simp only [List.filterMap_cons, hn, List.nodup_cons]
      refine ⟨?_, ih2⟩
      intro hmem
      rw [List.mem_filterMap] at hmem
      obtain ⟨r2, hr2, hr2n⟩ := hmem
      have h1 := hrow row (List.mem_cons_self _ _)
      have h2 := hrow r2 (List.mem_cons_of_mem _ hr2)
      have : r2 = row := by
        cases r2; cases row
        simp_all
      exact hL.1 (this ▸ hr2)

/-- C6 (amended): for an alive, active user of a store with unique external
identifiers the roles and groups select yields exactly one row, for that user; its
roles array holds the distinct role names the alive, active role edges lead to and
its groups array the distinct group names, so the lengths are the numbers of
distinct names, and they are the numbers of edges when the edges lead to as many
pairwise different names. -/
theorem rolesGroupsQuery_active (s : Store) (u : User)
    (huniq : (s.users.map User.UUID).Nodup) (hu : u ∈ s.users)
    (hact : u.app.Status = "O") (halive : u.app.DeletedAt = none) :
    ∃ agg, User.rolesGroupsQuery s u.UUID = [(u.ID, agg)] ∧
      (∀ n, n ∈ agg.roles ↔ n ∈ reachedNames s.user_roles s.roles u.ID) ∧
      (∀ n, n ∈ agg.groups ↔ n ∈ reachedNames s.user_groups s.groups u.ID) ∧
      agg.roles.length = (reachedNames s.user_roles s.roles u.ID).dedup.length ∧
      agg.groups.length = (reachedNames s.user_groups s.groups u.ID).dedup.length ∧
      ((reachedNames s.user_roles s.roles u.ID).Nodup →
        (reachedNames s.user_roles s.roles u.ID).length = (activeEdges s.user_roles u.ID).length →
        agg.roles.length = (activeEdges s.user_roles u.ID).length) ∧
      ((reachedNames s.user_groups s.groups u.ID).Nodup →
        (reachedNames s.user_groups s.groups u.ID).length
          = (activeEdges s.user_groups u.ID).length →
        agg.groups.length = (activeEdges s.user_groups u.ID).length) := by
  -- the rows of the table expression that belong to `u`
  have hsel : s.users.filter
      (fun x => x.UUID == u.UUID && x.app.Status == "O" && x.app.DeletedAt.isNone) = [u] := by
    apply eq_singleton_of_nodup
    · exact (List.Nodup.of_map _ huniq).filter _
    · simp [List.mem_filter, hu, hact, halive]
    · intro x hx
      rw [List.mem_filter] at hx
      have hxu : x.UUID = u.UUID := by
        have := hx.2
        simp only [Bool.and_eq_true, beq_iff_eq] at this
        exact this.1.1
      exact List.inj_on_of_nodup_map huniq hx.1 hu hxu
  have hjoined : (leftJoin s.users (User.rolesGroupsUnion s) (fun u rg => rg.user_id == u.ID)).filter
      (fun x => x.1.UUID == u.UUID && x.1.app.Status == "O" && x.1.app.DeletedAt.isNone) =
      leftJoin [u] (User.rolesGroupsUnion s) (fun u rg => rg.user_id == u.ID) := by
    rw [← hsel]
    exact filter_leftJoin s.users (User.rolesGroupsUnion s) (fun u rg => rg.user_id == u.ID)
      (fun x => x.UUID == u.UUID && x.app.Status == "O" && x.app.DeletedAt.isNone)
  obtain ⟨hne, hfst⟩ := leftJoin_single_fst u (User.rolesGroupsUnion s)
    (fun u rg => rg.user_id == u.ID)
  have hkeys : ((leftJoin [u] (User.rolesGroupsUnion s)
      (fun u rg => rg.user_id == u.ID)).map (fun x => x.1.ID)).dedup = [u.ID] := by
    apply eq_singleton_of_nodup
    · exact List.nodup_dedup _
    · rw [List.mem_dedup, List.mem_map]
      obtain ⟨x, hx⟩ := List.exists_mem_of_ne_nil _ hne
      exact ⟨x, hx, by rw [hfst x hx]⟩
    · intro k hk
      rw [List.mem_dedup, List.mem_map] at hk
      obtain ⟨x, hx, rfl⟩ := hk
      rw [hfst x hx]
  have hgrp : (leftJoin [u] (User.rolesGroupsUnion s) (fun u rg => rg.user_id == u.ID)).filter
      (fun x => x.1.ID == u.ID) =
      leftJoin [u] (User.rolesGroupsUnion s) (fun u rg => rg.user_id == u.ID) := by
    rw [List.filter_eq_self]
    intro x hx
    simp [hfst x hx]
  -- shape of the rows of `u` in the table expression
  have hL : ((User.rolesGroupsUnion s).filter (fun rg => rg.user_id == u.ID)).Nodup :=
    (List.nodup_dedup _).filter _
  have hshape : ∀ row ∈ (User.rolesGroupsUnion s).filter (fun rg => rg.user_id == u.ID),
      row.user_id = u.ID ∧ (row.role_name ≠ none → row.group_name = none) ∧
      (row.group_name ≠ none → row.role_name = none) := by
    intro row hrow
    rw [List.mem_filter] at hrow
    refine ⟨by simpa using hrow.2, ?_, ?_⟩
    · intro hr
      rcases (mem_rolesGroupsUnion s row).mp hrow.1 with h | h
      · exact h.1
      · exact absurd h.1 hr
    · intro hg
      rcases (mem_rolesGroupsUnion s row).mp hrow.1 with h | h
      · exact absurd h.1 hg
      · exact h.1
  have hroles_mem : ∀ n, n ∈ ((User.rolesGroupsUnion s).filter
      (fun rg => rg.user_id == u.ID)).filterMap (fun rg => rg.role_name) ↔
      n ∈ reachedNames s.user_roles s.roles u.ID := by
    intro n
    rw [List.mem_filterMap]
    constructor
    · rintro ⟨row, hrow, hn⟩
      rw [List.mem_filter] at hrow
      have hid : row.user_id = u.ID := by simpa using hrow.2
      rcases (mem_rolesGroupsUnion s row).mp hrow.1 with h | h
      · rw [hn, hid] at h
        exact ((mem_edgeNames_some _ _ _ _ _).mp h.2).2
      · rw [h.1] at hn
        exact absurd hn (by simp)
    · intro hn
      refine ⟨{ user_id := u.ID, role_name := some n, group_name := none }, ?_, rfl⟩
      rw [List.mem_filter]
      refine ⟨(mem_rolesGroupsUnion s _).mpr (Or.inl ⟨rfl, ?_⟩), by simp⟩
      exact (mem_edgeNames_some _ _ _ _ _).mpr ⟨⟨u, hu, rfl⟩, hn⟩
  have hgroups_mem : ∀ n, n ∈ ((User.rolesGroupsUnion s).filter
      (fun rg => rg.user_id == u.ID)).filterMap (fun rg => rg.group_name) ↔
      n ∈ reachedNames s.user_groups s.groups u.ID := by
    intro n
    rw [List.mem_filterMap]
    constructor
    · rintro ⟨row, hrow, hn⟩
      rw [List.mem_filter] at hrow
      have hid : row.user_id = u.ID := by simpa using hrow.2
      rcases (mem_rolesGroupsUnion s row).mp hrow.1 with h | h
      · rw [h.1] at hn
        exact absurd hn (by simp)
      · rw [hn, hid] at h
        exact ((mem_edgeNames_some _ _ _ _ _).mp h.2).2
    · intro hn
      refine ⟨{ user_id := u.ID, role_name := none, group_name := some n }, ?_, rfl⟩
      rw [List.mem_filter]
      refine ⟨(mem_rolesGroupsUnion s _).mpr (Or.inr ⟨rfl, ?_⟩), by simp⟩
      exact (mem_edgeNames_some _ _ _ _ _).mpr ⟨⟨u, hu, rfl⟩, hn⟩
  have hroles_nd := nodup_filterMap_role _ u.ID hL (fun row hrow => ⟨(hshape row hrow).1, (hshape row hrow).2.1⟩)
  have hgroups_nd := nodup_filterMap_group _ u.ID hL (fun row hrow => ⟨(hshape row hrow).1, (hshape row hrow).2.2⟩)
  have hroles_len : (((User.rolesGroupsUnion s).filter
      (fun rg => rg.user_id == u.ID)).filterMap (fun rg => rg.role_name)).length =
      (reachedNames s.user_roles s.roles u.ID).dedup.length :=
    ((List.perm_ext_iff_of_nodup hroles_nd (List.nodup_dedup _)).mpr
      (fun n => by rw [hroles_mem n, List.mem_dedup])).length_eq
  have hgroups_len : (((User.rolesGroupsUnion s).filter
      (fun rg => rg.user_id == u.ID)).filterMap (fun rg => rg.group_name)).length =
      (reachedNames s.user_groups s.groups u.ID).dedup.length :=
    ((List.perm_ext_iff_of_nodup hgroups_nd (List.nodup_dedup _)).mpr
      (fun n => by rw [hgroups_mem n, List.mem_dedup])).length_eq
  refine ⟨{ roles := ((User.rolesGroupsUnion s).filter
              (fun rg => rg.user_id == u.ID)).filterMap (fun rg => rg.role_name)
            groups := ((User.rolesGroupsUnion s).filter
              (fun rg => rg.user_id == u.ID)).filterMap (fun rg => rg.group_name) },
          ?_, hroles_mem, hgroups_mem, hroles_len, hgroups_len, ?_, ?_⟩
  · unfold User.rolesGroupsQuery
    simp only [hjoined, hkeys, List.map_cons, List.map_nil, hgrp, leftJoin_single_agg]
  · intro hnd hlen
    rw [hroles_len, hnd.dedup, hlen]
  · intro hnd hlen
    rw [hgroups_len, hnd.dedup, hlen]

/-- Witness for C6 (amended): user 1 of `rgStore`, two roles and no group. -/
theorem rolesGroupsQuery_active_witness :
    (rgStore.users.map User.UUID).Nodup ∧
    mkUser 1 "u-1" "alice" "a@x.com" ∈ rgStore.users ∧
    (User.rolesGroupsQuery rgStore "u-1").map
      (fun x => (x.1, x.2.roles.length, x.2.groups.length)) = [(1, 2, 0)] := by
  refine ⟨by decide, by decide, ?_⟩
  obtain ⟨agg, hq, _, _, _, _, hr, hg⟩ :=
    rolesGroupsQuery_active rgStore (mkUser 1 "u-1" "alice" "a@x.com")
      (by decide) (by decide) rfl rfl
  have h2 : agg.roles.length = 2 := (hr (by decide) (by decide)).trans (by decide)
  have h0 : agg.groups.length = 0 := (hg (by decide) (by decide)).trans (by decide)
  have hq2 : User.rolesGroupsQuery rgStore "u-1" = [(1, agg)] := hq
  rw [hq2, List.map_cons, List.map_nil, h2, h0]

/-- The three cases named by the spec, evaluated: two roles and no group, one role
and one group (one row, not two), and no edge at all. -/
theorem rolesGroupsQuery_examples :
    User.rolesGroupsQuery rgStore "u-1" = [(1, { roles := ["admin", "editor"], groups := [] })] ∧
    User.rolesGroupsQuery rgStore "u-2" = [(2, { roles := ["admin"], groups := ["staff"] })] ∧
    User.rolesGroupsQuery rgStore "u-3" = [(3, { roles := [], groups := [] })] := by
  refine ⟨?_, ?_, ?_⟩ <;> decide

/-- C6 (counterexample): a user holding one role through two alive, active junction
rows has two role edges, yet the set union keeps one row for them and the roles
array has length one. -/
theorem rolesGroupsQuery_duplicate_edges :
    (dupStore.users.map User.UUID).Nodup ∧
    mkUser 1 "u-1" "alice" "a@x.com" ∈ dupStore.users ∧
    (activeEdges dupStore.user_roles 1).length = 2 ∧
    User.rolesGroupsQuery dupStore "u-1" = [(1, { roles := ["admin"], groups := [] })] ∧
    ¬ ∃ agg, User.rolesGroupsQuery dupStore "u-1" = [(1, agg)] ∧
        agg.roles.length = (activeEdges dupStore.user_roles 1).length := by
  have hq : User.rolesGroupsQuery dupStore "u-1" = [(1, { roles := ["admin"], groups := [] })] := by
    decide
  refine ⟨by decide, by decide, by decide, hq, ?_⟩
  rintro ⟨agg, h1, h2⟩
  rw [hq] at h1
  simp only [List.cons.injEq, Prod.mk.injEq, and_true, true_and] at h1
  rw [← h1] at h2
  revert h2
  decide

/-- Two alive, active edges to two roles of the same name give one array entry too. -/
theorem rolesGroupsQuery_same_name :
    (activeEdges sameNameStore.user_roles 1).length = 2 ∧
    User.rolesGroupsQuery sameNameStore "u-1" = [(1, { roles := ["admin"], groups := [] })] := by
  refine ⟨?_, ?_⟩ <;> decide

/-! ### Upsert twice -/

/-- The first row a filter keeps is the row a search for the same test finds. -/
theorem find?_of_filter_cons {α : Type} (p : α → Bool) (l : List α) (x : α) (xs : List α)
    (h : l.filter p = x :: xs) : l.find? p = some x := by
  induction l with
  | nil => simp at h
  | cons a l ih =>
    cases hp : p a
    · rw [List.filter_cons_of_neg (by simp [hp])] at h
      rw [List.find?_cons_of_neg _ (by simp [hp])]
      exact ih h
    · rw [List.filter_cons_of_pos hp] at h
      rw [List.find?_cons_of_pos _ hp]
      simp only [List.cons.injEq] at h
      rw [h.1]

/-- Replacing the rows that pass a test by a row that passes it: the passing rows
become copies of the new row and the others stay. -/
theorem filter_map_replace {α : Type} (p : α → Bool) (c : α) (hc : p c = true) (l : List α) :
    (l.map (fun r => if p r then c else r)).filter p = (l.filter p).map (fun _ => c) ∧
    (l.map (fun r => if p r then c else r)).filter (fun r => !p r) =
      l.filter (fun r => !p r) := by
  induction l with
  | nil => simp
  | cons a l ih =>
    cases hp : p a <;> simp [hp, hc, ih.1, ih.2]

/-- The natural-key clash test reads only `username`, `email` and `mobile`. -/
theorem clashesNatural_congr (others : List User) (r r2 : User)
    (h1 : r.Username = r2.Username) (h2 : r.Email = r2.Email) (h3 : r.Mobile = r2.Mobile) :
    clashesNatural others r = clashesNatural others r2 := by
  unfold clashesNatural
  rw [h1, h2, h3]

/-- A non-empty external identifier is proposed as it is. -/
theorem proposedRow_UUID (s : Store) (item : User) (hne : item.UUID ≠ "") :
    (proposedRow s item).UUID = item.UUID := by
  have : item.app.UUID ≠ "" := hne
  simp [proposedRow, User.UUID, this]

/-- The proposed row holds the data columns of the payload. -/
theorem proposedRow_agrees (s : Store) (item : User) :
    agreesOnSetColumns (proposedRow s item) item := by
  simp [proposedRow, agreesOnSetColumns]

/-- After the conflict update the row holds the data columns of the payload and
keeps its external identifier. -/
theorem applySetClause_agrees (item target excluded : User) (now : Time)
    (h : agreesOnSetColumns excluded item) :
    agreesOnSetColumns (applySetClause (User.upsertSetClause item) now target excluded) item ∧
    (applySetClause (User.upsertSetClause item) now target excluded).UUID = target.UUID := by
  rw [applySetClause_upsert]
  exact ⟨h, rfl⟩

/-- On a row that already holds the data columns of the payload the conflict
update changes the update time only. -/
theorem applySetClause_same (item row excluded : User) (now : Time)
    (hr : agreesOnSetColumns row item) (he : agreesOnSetColumns excluded item) :
    applySetClause (User.upsertSetClause item) now row excluded = touch row now := by
  rw [applySetClause_upsert]
  obtain ⟨a1, a2, a3, a4, a5, a6, a7, a8, a9, a10⟩ := hr
  obtain ⟨b1, b2, b3, b4, b5, b6, b7, b8, b9, b10⟩ := he
  unfold touch
  rw [b1, b2, b3, b4, b5, b6, b7, b8, b9, b10, ← a1, ← a2, ← a3, ← a4, ← a5, ← a6, ← a7, ← a8,
    ← a9, ← a10]

/-- A successful conflict insert leaves exactly one row with the identifier of the
payload; it holds the data columns of the payload, clashes with no other row, and
the other rows are as before. -/
theorem insert_ok_shape (s s1 : Store) (item it1 : User)
    (huniq : (s.users.map User.UUID).Nodup) (hne : item.UUID ≠ "")
    (hok : insertOnConflictUUID s item (User.upsertSetClause item) = Except.ok (s1, it1)) :
    ∃ row, row.UUID = item.UUID ∧ agreesOnSetColumns row item ∧
      s1.users.filter (fun r => r.UUID == item.UUID) = [row] ∧
      s1.users.filter (fun r => r.UUID != item.UUID)
        = s.users.filter (fun r => r.UUID != item.UUID) ∧
      clashesNatural (s.users.filter (fun r => r.UUID != item.UUID)) row = false := by
  have hU := proposedRow_UUID s item hne
  unfold insertOnConflictUUID at hok
  simp only [hU] at hok
  cases hf : s.users.find? (fun r => r.UUID == item.UUID) with
  | some old =>
    rw [hf] at hok
    simp only at hok
    have hold : old.UUID = item.UUID := by simpa using List.find?_some hf
    have holdmem : old ∈ s.users := List.mem_of_find?_eq_some hf
    obtain ⟨hagree, huuid⟩ := applySetClause_agrees item old (proposedRow s item) s.clock
      (proposedRow_agrees s item)
    split at hok
    · exact absurd hok (by simp)
    · rename_i hclash
      simp only [Except.ok.injEq, Prod.mk.injEq] at hok
      obtain ⟨hs1, _⟩ := hok
      have hpc : (fun (r : User) => r.UUID == item.UUID)
          (applySetClause (User.upsertSetClause item) s.clock old (proposedRow s item)) = true := by
        simp [huuid, hold]
      have hrep := filter_map_replace (fun (r : User) => r.UUID == item.UUID) _ hpc s.users
      have hsingle : s.users.filter (fun r => r.UUID == item.UUID) = [old] := by
        apply eq_singleton_of_nodup
        · exact (List.Nodup.of_map _ huniq).filter _
        · simp [List.mem_filter, holdmem, hold]
        · intro x hx
          rw [List.mem_filter] at hx
          exact List.inj_on_of_nodup_map huniq hx.1 holdmem
            ((by simpa using hx.2 : x.UUID = item.UUID).trans hold.symm)
      refine ⟨applySetClause (User.upsertSetClause item) s.clock old (proposedRow s item),
        huuid.trans hold, hagree, ?_, ?_, ?_⟩
      · rw [← hs1]
        simp only
        rw [hrep.1, hsingle]
        rfl
      · rw [← hs1]
        exact hrep.2
      · simpa using hclash
  | none =>
    rw [hf] at hok
    simp only at hok
    have hnone : ∀ r ∈ s.users, (r.UUID == item.UUID) = false := by
      intro r hr
      simpa using List.find?_eq_none.mp hf r hr
    have hfil : s.users.filter (fun r => r.UUID == item.UUID) = [] := by
      rw [List.filter_eq_nil_iff]
      intro r hr
      simp [hnone r hr]
    have hfil2 : s.users.filter (fun r => r.UUID != item.UUID) = s.users := by
      rw [List.filter_eq_self]
      intro r hr
      simp [bne, hnone r hr]
    split at hok
    · exact absurd hok (by simp)
    · rename_i hclash
      simp only [Except.ok.injEq, Prod.mk.injEq] at hok
      obtain ⟨hs1, _⟩ := hok
      refine ⟨proposedRow s item, hU, proposedRow_agrees s item, ?_, ?_, ?_⟩
      · rw [← hs1]
        simp [List.filter_append, hfil, hU]
      · rw [← hs1]
        simp [List.filter_append, hU]
      · rw [hfil2]
        simp only [Bool.or_eq_true, not_or, Bool.not_eq_true] at hclash
        exact hclash.2

/-- The conflict insert on a store that already holds the payload succeeds and
only refreshes the update time of the stored row. -/
theorem insert_on_stored (s : Store) (item row : User) (hne : item.UUID ≠ "")
    (hrow : s.users.filter (fun r => r.UUID == item.UUID) = [row])
    (hagree : agreesOnSetColumns row item)
    (hclash : clashesNatural (s.users.filter (fun r => r.UUID != item.UUID)) row = false) :
    ∃ s2 it2, insertOnConflictUUID s item (User.upsertSetClause item) = Except.ok (s2, it2) ∧
      s2.users.filter (fun r => r.UUID == item.UUID) = [touch row s.clock] ∧
      s2.users.filter (fun r => r.UUID != item.UUID)
        = s.users.filter (fun r => r.UUID != item.UUID) := by
  have hU := proposedRow_UUID s item hne
  have hf := find?_of_filter_cons _ _ _ _ hrow
  have hrowU : row.UUID = item.UUID := by simpa using List.find?_some hf
  have hupd := applySetClause_same item row (proposedRow s item) s.clock hagree
    (proposedRow_agrees s item)
  have hcl : clashesNatural (s.users.filter (fun r => r.UUID != item.UUID)) (touch row s.clock)
      = false := by
    rw [← hclash]
    exact clashesNatural_congr _ _ _ rfl rfl rfl
  have hpc : (fun (r : User) => r.UUID == item.UUID) (touch row s.clock) = true := by
    have : (touch row s.clock).UUID = row.UUID := rfl
    simp [this, hrowU]
  have hrep := filter_map_replace (fun (r : User) => r.UUID == item.UUID) _ hpc s.users
  unfold insertOnConflictUUID
  simp only [hU, hf, hupd, hcl]
  refine ⟨_, _, rfl, ?_, ?_⟩
  · simp only
    rw [hrep.1, hrow]
    rfl
  · exact hrep.2

/-- A nil error of `Upsert` means the insert succeeded and was committed. -/
theorem Upsert_ok_inv (s : Store) (item : User) (hok : (User.Upsert s item).err = none) :
    ∃ it1, insertOnConflictUUID s item (User.upsertSetClause item)
      = Except.ok ((User.Upsert s item).store, it1) := by
  unfold User.Upsert executeTransaction at hok ⊢
  cases hi : insertOnConflictUUID s item (User.upsertSetClause item) with
  | error e => simp [hi] at hok
  | ok v => exact ⟨v.2, by simp [hi]⟩

/-- A successful insert makes `Upsert` return nil and commit the new store. -/
theorem Upsert_of_insert_ok (s s2 : Store) (item it2 : User)
    (hi : insertOnConflictUUID s item (User.upsertSetClause item) = Except.ok (s2, it2)) :
    (User.Upsert s item).err = none ∧ (User.Upsert s item).store = s2 := by
  unfold User.Upsert executeTransaction
  simp [hi]

/-- C7: in a store with unique external identifiers, when `Upsert` of a payload
with a non-empty identifier succeeds, the store holds exactly one row for that
identifier, carrying the data columns of the payload; a second `Upsert` of the same
payload (at any later clock value `t`) returns hint 200 and a nil error, and leaves
that one row as it was in every column but the update time, which is refreshed to
`t`; the other rows are untouched. -/
theorem Upsert_twice (s : Store) (item : User) (t : Time)
    (huniq : (s.users.map User.UUID).Nodup) (hne : item.UUID ≠ "")
    (hok : (User.Upsert s item).err = none) :
    ∃ row,
      (User.Upsert s item).store.users.filter (fun r => r.UUID == item.UUID) = [row] ∧
      agreesOnSetColumns row item ∧
      (User.Upsert { (User.Upsert s item).store with clock := t } item).httpStatus = 200 ∧
      (User.Upsert { (User.Upsert s item).store with clock := t } item).err = none ∧
      (User.Upsert { (User.Upsert s item).store with clock := t } item).store.users.filter
        (fun r => r.UUID == item.UUID) = [touch row t] ∧
      (User.Upsert { (User.Upsert s item).store with clock := t } item).store.users.filter
        (fun r => r.UUID != item.UUID)
        = (User.Upsert s item).store.users.filter (fun r => r.UUID != item.UUID) := by
  obtain ⟨it1, hi1⟩ := Upsert_ok_inv s item hok
  obtain ⟨row, hrowU, hagree, hone, hrest, hclash⟩ :=
    insert_ok_shape s (User.Upsert s item).store item it1 huniq hne hi1
  have hclash2 : clashesNatural
      ((User.Upsert s item).store.users.filter (fun r => r.UUID != item.UUID)) row = false := by
    rw [hrest]; exact hclash
  obtain ⟨s2, it2, hi2, hone2, hrest2⟩ :=
    insert_on_stored { (User.Upsert s item).store with clock := t } item row hne hone hagree hclash2
  obtain ⟨herr2, hstore2⟩ := Upsert_of_insert_ok _ s2 item it2 hi2
  have hmem : row ∈ (User.Upsert s item).store.users := by
    have : row ∈ (User.Upsert s item).store.users.filter (fun r => r.UUID == item.UUID) := by
      rw [hone]; simp
    exact (List.mem_filter.mp this).1
  refine ⟨row, hone, hagree, ?_, herr2, ?_, ?_⟩
  · exact (Upsert_hint_200_iff _ item).mpr ⟨hne, row, hmem, hrowU⟩
  · rw [hstore2]; exact hone2
  · rw [hstore2]; exact hrest2

/-- Witness for C7: a payload that renames the stored user `u-1` of `twoUsers`. -/
theorem Upsert_twice_witness :
    (twoUsers.users.map User.UUID).Nodup ∧ renamedAlice.UUID ≠ "" ∧
    (User.Upsert twoUsers renamedAlice).err = none ∧
    ∃ row,
      (User.Upsert twoUsers renamedAlice).store.users.filter
        (fun r => r.UUID == renamedAlice.UUID) = [row] ∧
      agreesOnSetColumns row renamedAlice ∧
      (User.Upsert { (User.Upsert twoUsers renamedAlice).store with clock := 9 }
        renamedAlice).httpStatus = 200 ∧
      (User.Upsert { (User.Upsert twoUsers renamedAlice).store with clock := 9 }
        renamedAlice).err = none ∧
      (User.Upsert { (User.Upsert twoUsers renamedAlice).store with clock := 9 }
        renamedAlice).store.users.filter (fun r => r.UUID == renamedAlice.UUID)
        = [touch row 9] ∧
      (User.Upsert { (User.Upsert twoUsers renamedAlice).store with clock := 9 }
        renamedAlice).store.users.filter (fun r => r.UUID != renamedAlice.UUID)
        = (User.Upsert twoUsers renamedAlice).store.users.filter
            (fun r => r.UUID != renamedAlice.UUID) :=
  ⟨by decide, by decide, by decide,
   Upsert_twice twoUsers renamedAlice 9 (by decide) (by decide) (by decide)⟩

/-- Upsert evaluated twice on a payload whose identifier is new: create, then
replace, with one stored row for the identifier after each call. -/
theorem Upsert_create_then_replace :
    (User.Upsert twoUsers newCarol).httpStatus = 201 ∧
    (User.Upsert twoUsers newCarol).err = none ∧
    (User.Upsert twoUsers newCarol).store.users.map User.UUID = ["u-1", "u-2", "u-9"] ∧
    (User.Upsert { (User.Upsert twoUsers newCarol).store with clock := 9 } newCarol).httpStatus
      = 200 ∧
    (User.Upsert { (User.Upsert twoUsers newCarol).store with clock := 9 } newCarol).store.users.map
      User.UUID = ["u-1", "u-2", "u-9"] := by
  refine ⟨?_, ?_, ?_, ?_, ?_⟩ <;> decide

/-- A failed mutation is audited too: a payload that takes the email of another
user fails on the unique column, leaves the store as it was, and its one audit call
carries the error. -/
theorem Upsert_failure_audited :
    (User.Upsert twoUsers (mkUser 0 "u-1" "alice" "b@x.com")).err
      = some Err.ConstraintViolation ∧
    (User.Upsert twoUsers (mkUser 0 "u-1" "alice" "b@x.com")).store.users = twoUsers.users ∧
    (User.Upsert twoUsers (mkUser 0 "u-1" "alice" "b@x.com")).audit.map
      (fun a => (a.entityType, a.action, a.err)) = [("user", "PUT", some Err.ConstraintViolation)] := by
  refine ⟨?_, ?_, ?_⟩ <;> decide

/-- A failed state transition is audited too, and a successful one once: `Delete`
of an identifier that is not stored returns `ErrNoRows` and launches one audit call
carrying it; `Delete` of a stored one returns the clock time and a nil error. -/
theorem Delete_audited_examples :
    (User.Delete specHelpers twoUsers "missing").err = some Err.ErrNoRows ∧
    (User.Delete specHelpers twoUsers "missing").audit =
      [{ oldValue := none, newValue := AuditValue.deletedAt 0, subjectId := 0,
         entityType := "user", action := "DELETE", err := some Err.ErrNoRows }] ∧
    (User.Delete specHelpers twoUsers "u-1").deletedAt = 5 ∧
    (User.Delete specHelpers twoUsers "u-1").audit =
      [{ oldValue := none, newValue := AuditValue.deletedAt 5, subjectId := 1,
         entityType := "user", action := "DELETE", err := none }] := by
  refine ⟨?_, ?_, ?_, ?_⟩ <;> decide

end Models
